import Mathlib

/-
Verification of the Mandelbrot renderer (src/src/main.rs).

Embedding conventions:
* GLSL/f32 floating-point arithmetic is modelled by exact rational
  arithmetic (ℚ); the result `1.01` literal denotes the rational 101/100.
* The GLSL test `length(z) > 4.` is embedded as `16 < normSq z`
  (squaring both sides of the nonnegative comparison avoids sqrt).
* GLSL integer division by zero is undefined behaviour; the fragment
  shader's `float(i/substeps)` is therefore embedded as a fallible
  computation returning `Option Color`, with `none` for the
  division-by-zero case (`substeps = 0` on an escaping pixel).
* Rust `i32` values are carried as ℤ, but the per-frame arithmetic on
  `substeps` (`substeps += 1`, `substeps -= 1`) applies `wrap32`, the
  two's-complement wrap-around of a 32-bit signed integer (Rust
  release-build overflow semantics).
-/

namespace Mandelbrot

/-- A `vec4` colour as produced by the fragment shader (r, g, b, a). -/
structure Color where
  r : ℚ
  g : ℚ
  b : ℚ
  a : ℚ
deriving DecidableEq

/-- `vec4(v, v, v, 1.)` — the grayscale colour the escape branch returns. -/
def gray (v : ℚ) : Color := ⟨v, v, v, 1⟩

/-- `vec4(1.)` — the solid-white colour returned when no escape occurs. -/
def white : Color := ⟨1, 1, 1, 1⟩

/-- Squared euclidean norm of a 2-vector; `length(z) > 4.` ⟺ `16 < normSq z`. -/
def normSq (z : ℚ × ℚ) : ℚ := z.1 * z.1 + z.2 * z.2

/-- One step of the shader recurrence:
`z = vec2(z.x * z.x - z.y * z.y, 2.0 * z.x * z.y) + c` (main.rs line 45). -/
def mandelStep (c z : ℚ × ℚ) : ℚ × ℚ :=
  (z.1 * z.1 - z.2 * z.2 + c.1, 2 * z.1 * z.2 + c.2)

/-- The mathematical orbit of the recurrence: `zseq c n` is the value of `z`
after `n` executions of line 45 starting from `z = vec2(0.)`. -/
def zseq (c : ℚ × ℚ) : ℕ → ℚ × ℚ
  | 0 => (0, 0)
  | n + 1 => mandelStep c (zseq c n)

/-- The escape test of loop index `i` fires: the `z` computed in loop
iteration `i` (which is `zseq c (i+1)`) has `length(z) > 4.`. -/
def escapesAt (c : ℚ × ℚ) (i : ℕ) : Prop :=
  16 < normSq (zseq c (i + 1))

instance (c : ℚ × ℚ) (i : ℕ) : Decidable (escapesAt c i) :=
  inferInstanceAs (Decidable (16 < normSq (zseq c (i + 1))))

/-- `c = position; c *= zoom; c += offset` (main.rs lines 40-42),
componentwise on the 2-vector. -/
def cOf (p : ℚ × ℚ) (zoom : ℚ) (offset : ℚ × ℚ) : ℚ × ℚ :=
  (p.1 * zoom + offset.1, p.2 * zoom + offset.2)

/-- The shader loop `for (int i = 0; i <= substeps; i++)` (main.rs
lines 44-49).  `fuel` is the number of loop iterations still to run
(`substeps + 1` at entry, clamped to 0 for negative `substeps`), `i` the
GLSL loop counter, `z` the current iterate.  On escape the shader returns
`vec4(float(i/substeps), ..., 1.)` with `i/substeps` an int division;
`substeps = 0` there is GLSL-undefined, embedded as `none`.  Falling out
of the loop returns `vec4(1.)` (line 50). -/
def mandelLoop (c : ℚ × ℚ) (s : ℤ) : ℚ × ℚ → ℤ → ℕ → Option Color
  | _, _, 0 => some white
  | z, i, fuel + 1 =>
    let z1 := mandelStep c z
    if 16 < normSq z1 then
      if s = 0 then none else some (gray ((i / s : ℤ) : ℚ))
    else
      mandelLoop c s z1 (i + 1) fuel

/-- The per-pixel evaluation `mandelbrot()` of the fragment shader
(main.rs lines 38-51), for quad position `p` and the three view uniforms. -/
def mandelbrot (p : ℚ × ℚ) (zoom : ℚ) (offset : ℚ × ℚ) (s : ℤ) : Option Color :=
  mandelLoop (cOf p zoom offset) s (0, 0) 0 (s + 1).toNat

/-- Number of executions of the recurrence (line 45) performed by the
shader loop with the given remaining `fuel`: same control flow as
`mandelLoop`, counting steps instead of producing the colour. -/
def mandelLoopSteps (c : ℚ × ℚ) : ℚ × ℚ → ℕ → ℕ
  | _, 0 => 0
  | z, fuel + 1 =>
    let z1 := mandelStep c z
    if 16 < normSq z1 then 1 else mandelLoopSteps c z1 fuel + 1

/-- Number of recurrence steps the per-pixel evaluation performs. -/
def mandelSteps (p : ℚ × ℚ) (zoom : ℚ) (offset : ℚ × ℚ) (s : ℤ) : ℕ :=
  mandelLoopSteps (cOf p zoom offset) (0, 0) (s + 1).toNat

/-- Pressed-state of the nine view-controlling keys polled each frame
(main.rs lines 175-203): I, K, W, S, D, A, Backspace, Up, Down. -/
structure Keys where
  i : Bool
  k : Bool
  w : Bool
  s : Bool
  d : Bool
  a : Bool
  backspace : Bool
  up : Bool
  down : Bool
deriving DecidableEq

/-- The per-frame view parameters (main.rs lines 160-163). -/
structure ViewState where
  zoom : ℚ
  offsetx : ℚ
  offsety : ℚ
  substeps : ℤ
deriving DecidableEq

/-- Startup values: `zoom = 1.`, `substeps = 1000`, `offset = (0., 0.)`
(main.rs lines 160-163). -/
def initState : ViewState := ⟨1, 0, 0, 1000⟩

/-- Two's-complement wrap-around of a Rust `i32`: reduces an integer into
`[-2^31, 2^31)` modulo `2^32` (release-build overflow semantics of
`substeps += 1` / `substeps -= 1`). -/
def wrap32 (x : ℤ) : ℤ := (x + 2147483648) % 4294967296 - 2147483648

/-- The input-to-parameter mapping of one frame (main.rs lines 175-203),
with the source's sequential mutation order made explicit: the pan keys
read the zoom already updated by I/K this frame, Backspace overrides the
pan/zoom updates, and Down reads the substeps already updated by Up.
The two `i32` updates of `substeps` wrap via `wrap32`. -/
def inputStep (st : ViewState) (ks : Keys) : ViewState :=
  let zoom1 := if ks.i then st.zoom / 1.01 else st.zoom
  let zoom2 := if ks.k then zoom1 * 1.01 else zoom1
  let oy1 := if ks.w then st.offsety + zoom2 / 150 else st.offsety
  let oy2 := if ks.s then oy1 - zoom2 / 150 else oy1
  let ox1 := if ks.d then st.offsetx + zoom2 / 150 else st.offsetx
  let ox2 := if ks.a then ox1 - zoom2 / 150 else ox1
  let ox3 := if ks.backspace then 0 else ox2
  let oy3 := if ks.backspace then 0 else oy2
  let zoom3 := if ks.backspace then 1 else zoom2
  let sub1 := if ks.up then wrap32 (st.substeps + 1) else st.substeps
  let sub2 := if ks.down = true ∧ 0 < sub1 then wrap32 (sub1 - 1) else sub1
  ⟨zoom3, ox3, oy3, sub2⟩

/-- View state after a finite sequence of frames, one key-state per frame,
starting from the startup state. -/
def runFrames (frames : List Keys) : ViewState :=
  frames.foldl inputStep initState

/-- Only the zoom-in key (I) held. -/
def zoomInKeys : Keys := ⟨true, false, false, false, false, false, false, false, false⟩

/-- Only the zoom-out key (K) held. -/
def zoomOutKeys : Keys := ⟨false, true, false, false, false, false, false, false, false⟩

/-- Only the decrease-detail key (Down) held. -/
def downKeys : Keys := ⟨false, false, false, false, false, false, false, false, true⟩

/-- Only the increase-detail key (Up) held. -/
def upKeys : Keys := ⟨false, false, false, false, false, false, false, true, false⟩

/-- Only the reset key (Backspace) held. -/
def resetKeys : Keys := ⟨false, false, false, false, false, false, true, false, false⟩

/-- No view key held. -/
def noKeys : Keys := ⟨false, false, false, false, false, false, false, false, false⟩

/-- Events the window system can deliver in a frame: the quit key
(Escape, handled by `handle_window_event`, main.rs lines 241-248), a
platform close request (the collaborator's close flag, spec §6), or any
other event (ignored by the handler's catch-all arm). -/
inductive GEvent where
  | escKeyPress : GEvent
  | closeRequest : GEvent
  | otherEvent : GEvent
deriving DecidableEq

/-- Effect of one delivered event on the window's close flag:
`handle_window_event` sets it on an Escape press and leaves it unchanged
otherwise; a platform close request sets it. -/
def handleEvent (close : Bool) (e : GEvent) : Bool :=
  match e with
  | GEvent.escKeyPress => true
  | GEvent.closeRequest => true
  | GEvent.otherEvent => close

/-- Environment input consumed by one frame of the render loop: the polled
key states and the drained event queue. -/
structure FrameInput where
  keys : Keys
  events : List GEvent
deriving DecidableEq

/-- The render loop `while !window.should_close()` (main.rs lines
165-238) driven by a finite stream of per-frame environment inputs.
Result: final view state, final close flag, and whether the loop
terminated (`true` iff the `while` guard failed; `false` means the
environment stream ran out with the loop still running). -/
def renderLoop : ViewState → Bool → List FrameInput → ViewState × Bool × Bool
  | st, true, _ => (st, true, true)
  | st, false, [] => (st, false, false)
  | st, false, inp :: rest =>
    renderLoop (inputStep st inp.keys) (inp.events.foldl handleEvent false) rest

/-- Diagnostics the initialization can print (main.rs lines 84-112). -/
inductive Diag where
  | vertexCompile : Diag
  | fragmentCompile : Diag
  | programLink : Diag
deriving DecidableEq

/-- The diagnostics emitted for the given driver-reported statuses:
each failed status prints its info log (main.rs lines 85-88, 96-100,
108-112) and control falls through. -/
def shaderDiags (vOk fOk lOk : Bool) : List Diag :=
  (if vOk then [] else [Diag.vertexCompile]) ++
  (if fOk then [] else [Diag.fragmentCompile]) ++
  (if lOk then [] else [Diag.programLink])

/-- Outcome of program start-up. -/
inductive InitResult where
  | fatal : InitResult
  | proceed : List Diag → InitResult
deriving DecidableEq

/-- Start-up control flow (main.rs lines 60-155): window creation failure
panics (`.expect`, line 64) and is fatal; shader compile and link
failures only print diagnostics and execution reaches the render loop. -/
def setupGraphics (windowOk vOk fOk lOk : Bool) : InitResult :=
  if windowOk then InitResult.proceed (shaderDiags vOk fOk lOk) else InitResult.fatal

/-! ## Shader-loop lemmas -/

/-- If no loop index in the remaining window escapes, the loop falls
through and returns solid white. -/
lemma mandelLoop_white (c : ℚ × ℚ) (s : ℤ) (fuel : ℕ) :
    ∀ n : ℕ, (∀ j, j < fuel → ¬ escapesAt c (n + j)) →
      mandelLoop c s (zseq c n) (n : ℤ) fuel = some white := by
  induction fuel with
  | zero => intro n _; rfl
  | succ fuel ih =>
    intro n h
    simp only [mandelLoop]
    have hfe : mandelStep c (zseq c n) = zseq c (n + 1) := rfl
    rw [hfe]
    have h0 : ¬ 16 < normSq (zseq c (n + 1)) := by
      simpa [escapesAt] using h 0 (Nat.succ_pos fuel)
    rw [if_neg h0]
    have hcast : ((n : ℤ) + 1) = (((n + 1 : ℕ)) : ℤ) := by omega
    rw [hcast]
    refine ih (n + 1) (fun j hj => ?_)
    have h2 := h (j + 1) (by omega)
    rwa [show n + (j + 1) = (n + 1) + j by omega] at h2

/-- If the least escaping loop index in the remaining window is `m`, the
loop returns the grayscale of the int division `m / s`. -/
lemma mandelLoop_escape (c : ℚ × ℚ) (s : ℤ) (hs : s ≠ 0) (fuel : ℕ) :
    ∀ n m : ℕ, n ≤ m → m < n + fuel → escapesAt c m →
      (∀ j, n ≤ j → j < m → ¬ escapesAt c j) →
      mandelLoop c s (zseq c n) (n : ℤ) fuel = some (gray (((m : ℤ) / s : ℤ) : ℚ)) := by
  induction fuel with
  | zero => intro n m h1 h2 _ _; exact absurd h2 (by omega)
  | succ fuel ih =>
    intro n m hnm hlt hesc hmin
    simp only [mandelLoop]
    have hfe : mandelStep c (zseq c n) = zseq c (n + 1) := rfl
    rw [hfe]
    rcases Nat.eq_or_lt_of_le hnm with heq | hgt
    · subst heq
      have hpos : 16 < normSq (zseq c (n + 1)) := by simpa [escapesAt] using hesc
      rw [if_pos hpos, if_neg hs]
    · have h0 : ¬ 16 < normSq (zseq c (n + 1)) := by
        simpa [escapesAt] using hmin n le_rfl hgt
      rw [if_neg h0]
      have hcast : ((n : ℤ) + 1) = (((n + 1 : ℕ)) : ℤ) := by omega
      rw [hcast]
      exact ih (n + 1) m hgt (by omega) hesc (fun j hj1 hj2 => hmin j (by omega) hj2)

/-- With a nonzero substeps uniform the loop never reaches the
division-by-zero branch: it always produces a colour. -/
lemma mandelLoop_isSome (c : ℚ × ℚ) (s : ℤ) (hs : s ≠ 0) :
    ∀ (fuel : ℕ) (z : ℚ × ℚ) (i : ℤ), (mandelLoop c s z i fuel).isSome = true := by
  intro fuel
  induction fuel with
  | zero => intro z i; rfl
  | succ fuel ih =>
    intro z i
    simp only [mandelLoop]
    split
    · rfl
    · exact ih _ _

/-- The loop performs at most `fuel` recurrence steps. -/
lemma mandelLoopSteps_le (c : ℚ × ℚ) :
    ∀ (fuel : ℕ) (z : ℚ × ℚ), mandelLoopSteps c z fuel ≤ fuel := by
  intro fuel
  induction fuel with
  | zero => intro z; exact Nat.le_refl 0
  | succ fuel ih =>
    intro z
    simp only [mandelLoopSteps]
    split
    · omega
    · have := ih (mandelStep c z); omega

/-! ## Input-mapping lemmas -/

/-- One frame of input mapping keeps the zoom strictly positive: the zoom
is only ever divided by 1.01, multiplied by 1.01, left alone, or reset
to 1. -/
lemma inputStep_zoom_pos (st : ViewState) (ks : Keys) (h : 0 < st.zoom) :
    0 < (inputStep st ks).zoom := by
  simp only [inputStep]
  split
  · exact one_pos
  · split
    · split
      · exact mul_pos (div_pos h (by norm_num)) (by norm_num)
      · exact mul_pos h (by norm_num)
    · split
      · exact div_pos h (by norm_num)
      · exact h

/-- Positivity of the zoom is preserved along any frame sequence. -/
lemma runFrom_zoom_pos : ∀ (l : List Keys) (st : ViewState),
    0 < st.zoom → 0 < (l.foldl inputStep st).zoom
  | [], _, h => h
  | k :: l, st, h => runFrom_zoom_pos l _ (inputStep_zoom_pos st k h)

/-- `wrap32` is the identity on values already in the `i32` range. -/
lemma wrap32_eq_self (x : ℤ) (h1 : -2147483648 ≤ x) (h2 : x < 2147483648) :
    wrap32 x = x := by
  simp only [wrap32]
  omega

/-- `wrap32` always lands in the `i32` range. -/
lemma wrap32_bounds (x : ℤ) : -2147483648 ≤ wrap32 x ∧ wrap32 x < 2147483648 := by
  simp only [wrap32]
  omega

/-- Wrapping is a congruence for addition. -/
lemma wrap32_wrap32_add (x y : ℤ) : wrap32 (wrap32 x + y) = wrap32 (x + y) := by
  simp only [wrap32]
  omega

/-- Effect of an increase-detail-only frame on the iteration limit. -/
lemma inputStep_upKeys (st : ViewState) :
    (inputStep st upKeys).substeps = wrap32 (st.substeps + 1) := by
  simp [inputStep, upKeys]

/-- A frame with Up held and no overflow keeps the limit in
`[0, substeps + 1]`. -/
lemma inputStep_substeps_up (st : ViewState) (ks : Keys) (hu : ks.up = true)
    (h0 : 0 ≤ st.substeps) (h1 : st.substeps + 1 ≤ 2147483647) :
    0 ≤ (inputStep st ks).substeps ∧ (inputStep st ks).substeps ≤ st.substeps + 1 := by
  simp only [inputStep, hu]
  simp only [if_true]
  constructor <;> simp only [wrap32] <;> split <;> omega

/-- A frame with Up not held keeps an in-range limit in `[0, substeps]`. -/
lemma inputStep_substeps_noUp (st : ViewState) (ks : Keys) (hu : ks.up = false)
    (h0 : 0 ≤ st.substeps) (h1 : st.substeps ≤ 2147483647) :
    0 ≤ (inputStep st ks).substeps ∧ (inputStep st ks).substeps ≤ st.substeps := by
  simp only [inputStep, hu]
  simp only [Bool.false_eq_true, if_false]
  constructor <;> simp only [wrap32] <;> split <;> omega

/-- Along any frame sequence whose total number of Up frames cannot push
the limit past `i32` max, the limit stays in
`[0, substeps + number of Up frames]`. -/
lemma runFrom_substeps_bounded : ∀ (l : List Keys) (st : ViewState),
    0 ≤ st.substeps →
    st.substeps + (l.countP fun ks => ks.up) ≤ 2147483647 →
    0 ≤ (l.foldl inputStep st).substeps ∧
      (l.foldl inputStep st).substeps ≤ st.substeps + (l.countP fun ks => ks.up) := by
  intro l
  induction l with
  | nil =>
    intro st h0 _
    refine ⟨h0, ?_⟩
    simp
  | cons ks l ih =>
    intro st h0 hbound
    rw [List.foldl_cons]
    rw [List.countP_cons] at hbound ⊢
    by_cases hu : ks.up = true
    · simp only [hu, if_true] at hbound ⊢
      obtain ⟨hs0, hs1⟩ := inputStep_substeps_up st ks hu h0 (by omega)
      obtain ⟨hr0, hr1⟩ := ih (inputStep st ks) hs0 (by omega)
      exact ⟨hr0, by omega⟩
    · rw [Bool.not_eq_true] at hu
      simp only [hu, Bool.false_eq_true, if_false] at hbound ⊢
      obtain ⟨hs0, hs1⟩ := inputStep_substeps_noUp st ks hu h0 (by omega)
      obtain ⟨hr0, hr1⟩ := ih (inputStep st ks) hs0 (by omega)
      exact ⟨hr0, by omega⟩

/-- Holding only increase-detail for `n` frames from an in-range limit
wraps the limit to `wrap32 (substeps + n)`. -/
lemma upRun : ∀ (n : ℕ) (st : ViewState),
    -2147483648 ≤ st.substeps → st.substeps < 2147483648 →
    ((List.replicate n upKeys).foldl inputStep st).substeps = wrap32 (st.substeps + n) := by
  intro n
  induction n with
  | zero =>
    intro st h1 h2
    simp only [List.replicate, List.foldl_nil, Nat.cast_zero, add_zero]
    exact (wrap32_eq_self st.substeps h1 h2).symm
  | succ n ih =>
    intro st h1 h2
    rw [List.replicate_succ, List.foldl_cons]
    have hb := wrap32_bounds (st.substeps + 1)
    have hrec := ih (inputStep st upKeys)
      (by rw [inputStep_upKeys]; exact hb.1)
      (by rw [inputStep_upKeys]; exact hb.2)
    rw [hrec, inputStep_upKeys, wrap32_wrap32_add]
    congr 1
    push_cast
    ring

/-- A zoom-in-only frame divides the zoom by 1.01 and changes nothing
else. -/
lemma inputStep_zoomIn (st : ViewState) :
    inputStep st zoomInKeys = ⟨st.zoom / 1.01, st.offsetx, st.offsety, st.substeps⟩ := by
  simp [inputStep, zoomInKeys]

/-- A zoom-out-only frame multiplies the zoom by 1.01 and changes nothing
else. -/
lemma inputStep_zoomOut (st : ViewState) :
    inputStep st zoomOutKeys = ⟨st.zoom * 1.01, st.offsetx, st.offsety, st.substeps⟩ := by
  simp [inputStep, zoomOutKeys]

/-- Zoom after holding only zoom-in for `n` frames. -/
lemma zoomIn_run (n : ℕ) (st : ViewState) :
    ((List.replicate n zoomInKeys).foldl inputStep st).zoom = st.zoom / 1.01 ^ n := by
  induction n generalizing st with
  | zero => simp
  | succ n ih =>
    rw [List.replicate_succ, List.foldl_cons, inputStep_zoomIn, ih]
    dsimp only
    rw [div_div, ← pow_succ']

/-- Zoom after holding only zoom-out for `n` frames. -/
lemma zoomOut_run (n : ℕ) (st : ViewState) :
    ((List.replicate n zoomOutKeys).foldl inputStep st).zoom = st.zoom * 1.01 ^ n := by
  induction n generalizing st with
  | zero => simp
  | succ n ih =>
    rw [List.replicate_succ, List.foldl_cons, inputStep_zoomOut, ih]
    dsimp only
    rw [mul_assoc, ← pow_succ']

/-- Effect of a decrease-detail-only frame on the iteration limit. -/
lemma inputStep_downKeys (st : ViewState) :
    (inputStep st downKeys).substeps =
      if 0 < st.substeps then wrap32 (st.substeps - 1) else st.substeps := by
  simp [inputStep, downKeys]

/-- Holding only decrease-detail for at least `substeps` frames from an
in-range nonnegative limit drives the iteration limit to exactly 0. -/
lemma downRun : ∀ (n : ℕ) (st : ViewState), 0 ≤ st.substeps → st.substeps ≤ (n : ℤ) →
    st.substeps ≤ 2147483647 →
    ((List.replicate n downKeys).foldl inputStep st).substeps = 0 := by
  intro n
  induction n with
  | zero =>
    intro st h1 h2 _
    simp only [List.replicate, List.foldl_nil]
    omega
  | succ n ih =>
    intro st h1 h2 h3
    rw [List.replicate_succ, List.foldl_cons]
    refine ih _ ?_ ?_ ?_ <;> rw [inputStep_downKeys] <;> simp only [wrap32] <;>
      split <;> omega

/-- Escaping on the very first loop step with a zero substeps uniform
reaches the division-by-zero branch. -/
lemma mandelLoop_none (c : ℚ × ℚ) (fuel : ℕ) (h : escapesAt c 0) :
    mandelLoop c 0 (zseq c 0) 0 (fuel + 1) = none := by
  simp only [mandelLoop]
  have hfe : mandelStep c (zseq c 0) = zseq c 1 := rfl
  rw [hfe, if_pos (by simpa [escapesAt] using h)]
  simp

/-- The loop with nonzero remaining fuel performs at least one recurrence
step. -/
lemma mandelLoopSteps_pos (c : ℚ × ℚ) (z : ℚ × ℚ) (fuel : ℕ) :
    0 < mandelLoopSteps c z (fuel + 1) := by
  simp only [mandelLoopSteps]
  split
  · omega
  · omega

/-! ## Concrete pixel evaluations (rational arithmetic via norm_num) -/

lemma cOf_center : cOf (0, 0) 1 (0, 0) = (0, 0) := by norm_num [cOf]

lemma cOf_corner2 : cOf (1, 1) 2 (0, 0) = (2, 2) := by norm_num [cOf]

lemma cOf_corner5 : cOf (1, 1) 5 (0, 0) = (5, 5) := by norm_num [cOf]

/-- The orbit of `c = (0,0)` stays at the origin. -/
lemma zseq_origin : ∀ n : ℕ, zseq ((0 : ℚ), (0 : ℚ)) n = (0, 0)
  | 0 => rfl
  | n + 1 => by
    show mandelStep (0, 0) (zseq ((0 : ℚ), (0 : ℚ)) n) = (0, 0)
    rw [zseq_origin n]
    norm_num [mandelStep]

/-- The pixel with `c = (0,0)` never escapes. -/
lemma no_escape_origin (i : ℕ) : ¬ escapesAt (0, 0) i := by
  simp only [escapesAt, zseq_origin]
  norm_num [normSq]

/-- `c = (5,5)` escapes at loop index 0: `|z_1|² = |c|² = 50 > 16`. -/
lemma escape55_at0 : escapesAt (5, 5) 0 := by
  norm_num [escapesAt, zseq, mandelStep, normSq]

/-- `c = (2,2)` does not escape at loop index 0: `|z_1|² = |c|² = 8 ≤ 16`. -/
lemma no_escape22_at0 : ¬ escapesAt (2, 2) 0 := by
  norm_num [escapesAt, zseq, mandelStep, normSq]

/-- `c = (2,2)` escapes at loop index 1: `z_2 = (2,10)`, `|z_2|² = 104 > 16`. -/
lemma escape22_at1 : escapesAt (2, 2) 1 := by
  norm_num [escapesAt, zseq, mandelStep, normSq]

/-- At quad corner (1,1) with zoom 5 and substeps 0, the evaluation hits
the division-by-zero branch. -/
lemma mandelbrot_div0_corner : mandelbrot (1, 1) 5 (0, 0) 0 = none := by
  simp only [mandelbrot, cOf_corner5]
  exact mandelLoop_none (5, 5) 0 escape55_at0

/-! ## Render-loop lemmas -/

/-- The close flag only becomes true if it already was, or some delivered
event is an Escape press or a platform close request. -/
lemma foldl_handleEvent_true : ∀ (evs : List GEvent) (b : Bool),
    evs.foldl handleEvent b = true →
    b = true ∨ ∃ e ∈ evs, e = GEvent.escKeyPress ∨ e = GEvent.closeRequest := by
  intro evs
  induction evs with
  | nil => intro b h; exact Or.inl h
  | cons e evs ih =>
    intro b h
    rcases ih (handleEvent b e) h with h1 | h2
    · cases e with
      | escKeyPress => exact Or.inr ⟨GEvent.escKeyPress, by simp, Or.inl rfl⟩
      | closeRequest => exact Or.inr ⟨GEvent.closeRequest, by simp, Or.inr rfl⟩
      | otherEvent => exact Or.inl h1
    · rcases h2 with ⟨x, hx, hreq⟩
      exact Or.inr ⟨x, List.mem_cons_of_mem e hx, hreq⟩

/-- If the render loop terminated, either the close flag was already set
on entry or some consumed frame delivered a close request. -/
lemma renderLoop_close_of_term : ∀ (inputs : List FrameInput) (st : ViewState) (cl : Bool),
    (renderLoop st cl inputs).2.2 = true →
    cl = true ∨ ∃ inp ∈ inputs, ∃ e ∈ inp.events,
      e = GEvent.escKeyPress ∨ e = GEvent.closeRequest := by
  intro inputs
  induction inputs with
  | nil =>
    intro st cl h
    cases cl
    · exact absurd h (by simp [renderLoop])
    · exact Or.inl rfl
  | cons inp rest ih =>
    intro st cl h
    cases cl
    · have h2 := ih (inputStep st inp.keys) (inp.events.foldl handleEvent false) h
      rcases h2 with h3 | h4
      · rcases foldl_handleEvent_true inp.events false h3 with h5 | h6
        · exact absurd h5 (by simp)
        · rcases h6 with ⟨e, he, hreq⟩
          exact Or.inr ⟨inp, by simp, e, he, hreq⟩
      · rcases h4 with ⟨inp2, hin, e, he, hreq⟩
        exact Or.inr ⟨inp2, List.mem_cons_of_mem inp hin, e, he, hreq⟩
    · exact Or.inl rfl

/-! ## Claim theorems -/

/-- C1 (counterexample): as stated the claim quantifies over every
`iterationLimit`, but with `iterationLimit = 0` a pixel whose `z` escapes
on the first loop step (here `c = (5,5)`) evaluates the GLSL-undefined
integer division `0/0`, so the output is the embedded error value `none`,
neither a grayscale of an integer division nor solid white. -/
theorem pixel_coloring_counterexample :
    escapesAt (cOf (1, 1) 5 (0, 0)) 0 ∧ mandelbrot (1, 1) 5 (0, 0) 0 = none := by
  refine ⟨?_, mandelbrot_div0_corner⟩
  rw [cOf_corner5]
  exact escape55_at0

/-- C1 (amended): for every pixel `p` and parameters `zoom`, `offset` and
`iterationLimit > 0`, with `c = p * zoom + offset` and the recurrence
`z_{n+1} = (z.x² − z.y², 2·z.x·z.y) + c` from `z_0 = (0,0)`: if no loop
index `i ≤ iterationLimit` escapes (`|z_{i+1}| > 4`), the output is solid
white `(1,1,1,1)`; and if the least escaping index is `i ≤ iterationLimit`,
the output is the grayscale of the integer division `i / iterationLimit`
with alpha 1. -/
theorem pixel_escape_coloring (p : ℚ × ℚ) (zoom : ℚ) (offset : ℚ × ℚ) (s : ℤ)
    (hs : 0 < s) :
    ((∀ i, i ≤ s.toNat → ¬ escapesAt (cOf p zoom offset) i) →
        mandelbrot p zoom offset s = some white) ∧
    (∀ i, i ≤ s.toNat → escapesAt (cOf p zoom offset) i →
        (∀ j, j < i → ¬ escapesAt (cOf p zoom offset) j) →
        mandelbrot p zoom offset s = some (gray (((i : ℤ) / s : ℤ) : ℚ))) := by
  constructor
  · intro h
    have hw := mandelLoop_white (cOf p zoom offset) s ((s + 1).toNat) 0
      (fun j hj => by simpa using h j (by omega))
    simpa [mandelbrot, zseq] using hw
  · intro i hi hesc hmin
    have he := mandelLoop_escape (cOf p zoom offset) s (by omega) ((s + 1).toNat) 0 i
      (Nat.zero_le i) (by omega) hesc (fun j _ hj => hmin j hj)
    simpa [mandelbrot, zseq] using he

/-- C1 (witness): at `p = (0,0)`, `zoom = 1`, `offset = (0,0)`,
`iterationLimit = 1`, the orbit never escapes and the output is white. -/
theorem pixel_escape_coloring_witness :
    (0 : ℤ) < 1 ∧ mandelbrot (0, 0) 1 (0, 0) 1 = some white :=
  ⟨by decide, (pixel_escape_coloring (0, 0) 1 (0, 0) 1 (by decide)).1
    (fun i _ => by rw [cOf_center]; exact no_escape_origin i)⟩

/-- C2 (counterexample): with `iterationLimit = 0` (≥ 0) at the pixel
`c = (0,0)`, the loop performs 1 recurrence step before declaring
non-escape — more than the claimed bound of 0 steps. -/
theorem loop_steps_exceed_limit : 0 < mandelSteps (0, 0) 1 (0, 0) 0 := by
  simp only [mandelSteps]
  exact mandelLoopSteps_pos (cOf (0, 0) 1 (0, 0)) (0, 0) 0

/-- C2 (amended): the escape-time loop performs at most
`iterationLimit + 1` recurrence steps (the loop bound `i <= substeps` is
inclusive; for negative `iterationLimit` it performs none). -/
theorem loop_steps_bounded (p : ℚ × ℚ) (zoom : ℚ) (offset : ℚ × ℚ) (s : ℤ) :
    mandelSteps p zoom offset s ≤ (s + 1).toNat :=
  mandelLoopSteps_le (cOf p zoom offset) ((s + 1).toNat) (0, 0)

/-- C3: starting from the initial state (zoom = 1), after any finite
sequence of per-frame key states the zoom is strictly positive: each
frame only divides it by 1.01, multiplies it by 1.01, leaves it alone, or
resets it to 1. -/
theorem zoom_stays_positive (frames : List Keys) : 0 < (runFrames frames).zoom :=
  runFrom_zoom_pos frames initState one_pos

/-- C4 (counterexample): holding only increase-detail for 2^31 − 1000
frames drives the `i32` iteration limit from its initial 1000 through
`i32` max and wraps it to `i32` min, which is negative — the
every-sequence invariant `iterationLimit ≥ 0` fails at this concrete
input. -/
theorem substeps_wraps_negative :
    (runFrames (List.replicate 2147482648 upKeys)).substeps < 0 := by
  have h := upRun 2147482648 initState (by decide) (by decide)
  simp only [runFrames]
  rw [h]
  decide

/-- C4 (amended): starting from `iterationLimit = 1000`, the invariant
`iterationLimit ≥ 0` is preserved by the input-mapping step of every
frame of any sequence containing at most 2^31 − 1001 increase-detail
frames (so the `i32` increment never overflows); a decrease-detail frame
with the limit at 0 leaves it at 0, and with the limit positive and in
`i32` range decrements it by 1. -/
theorem substeps_clamped_nonneg :
    (∀ frames : List Keys, (frames.countP fun ks => ks.up) ≤ 2147482647 →
        0 ≤ (runFrames frames).substeps) ∧
    (∀ (st : ViewState) (ks : Keys), st.substeps = 0 → ks.up = false →
        (inputStep st ks).substeps = 0) ∧
    (∀ (st : ViewState) (ks : Keys), ks.up = false → ks.down = true →
        0 < st.substeps → st.substeps ≤ 2147483647 →
        (inputStep st ks).substeps = st.substeps - 1) := by
  refine ⟨?_, ?_, ?_⟩
  · intro frames h
    exact (runFrom_substeps_bounded frames initState (by decide)
      (by simp only [initState]; omega)).1
  · intro st ks h1 h2
    simp [inputStep, h1, h2]
  · intro st ks h1 h2 h3 h4
    simp [inputStep, h1, h2, h3]
    simp only [wrap32]
    omega

/-- C4 (witness): concrete instances of the three conjuncts. -/
theorem substeps_clamped_nonneg_witness :
    0 ≤ (runFrames [downKeys]).substeps ∧
    (inputStep ⟨1, 0, 0, 0⟩ downKeys).substeps = 0 ∧
    (inputStep ⟨1, 0, 0, 5⟩ downKeys).substeps = 5 - 1 :=
  ⟨substeps_clamped_nonneg.1 [downKeys] (by decide),
   substeps_clamped_nonneg.2.1 ⟨1, 0, 0, 0⟩ downKeys rfl rfl,
   substeps_clamped_nonneg.2.2 ⟨1, 0, 0, 5⟩ downKeys rfl rfl (by decide) (by decide)⟩

/-- C5: a frame in which the reset key (Backspace) is held ends its input
mapping with `offset = (0,0)` and `zoom = 1`, whatever the prior view
state and the other keys. -/
theorem reset_restores_view (st : ViewState) (ks : Keys) (h : ks.backspace = true) :
    (inputStep st ks).offsetx = 0 ∧ (inputStep st ks).offsety = 0 ∧
      (inputStep st ks).zoom = 1 := by
  simp [inputStep, h]

/-- C5 (witness): resetting from the initial state. -/
theorem reset_restores_view_witness :
    (inputStep initState resetKeys).offsetx = 0 ∧
    (inputStep initState resetKeys).offsety = 0 ∧
    (inputStep initState resetKeys).zoom = 1 :=
  reset_restores_view initState resetKeys rfl

/-- C6: from zoom = 1, holding only zoom-in for `N` frames gives
zoom = 1 / 1.01^N and holding only zoom-out for `N` frames gives
zoom = 1.01^N — exactly, in the rational model of the arithmetic. -/
theorem zoom_hold_formula (N : ℕ) :
    (runFrames (List.replicate N zoomInKeys)).zoom = 1 / 1.01 ^ N ∧
    (runFrames (List.replicate N zoomOutKeys)).zoom = 1.01 ^ N := by
  constructor
  · rw [runFrames, zoomIn_run]
    norm_num [initState]
  · rw [runFrames, zoomOut_run]
    norm_num [initState]

/-- C7 (counterexample): for the pixel with `c = (2,2)` (zoom = 2,
offset = (0,0), quad corner (1,1)), `|c|` does NOT exceed the escape
threshold 4: `|c|² = 8 ≤ 16`, so the escape test does not fire at loop
index 0 (where `z = c`). -/
theorem corner_no_escape_at_zero :
    normSq (cOf (1, 1) 2 (0, 0)) ≤ 16 ∧
    normSq (zseq (cOf (1, 1) 2 (0, 0)) 1) ≤ 16 := by
  rw [cOf_corner2]
  constructor <;> norm_num [normSq, zseq, mandelStep]

/-- C7 (amended): for the pixel with `c = (2,2)` the escape threshold is
first exceeded at loop index 1 (`z = (2,10)`, `|z|² = 104 > 16`), so with
`iterationLimit = 1000` the evaluation escapes within the first two
iterations and outputs intensity `1/1000` integer-divided, i.e. the
grayscale 0 — an early escape index near 0. -/
theorem corner_escapes_early :
    escapesAt (cOf (1, 1) 2 (0, 0)) 1 ∧
    mandelbrot (1, 1) 2 (0, 0) 1000 = some (gray 0) := by
  constructor
  · rw [cOf_corner2]
    exact escape22_at1
  · simp only [mandelbrot, cOf_corner2]
    have he := mandelLoop_escape (2, 2) 1000 (by norm_num) (((1000 : ℤ) + 1).toNat) 0 1
      (by omega) (by omega) escape22_at1
      (fun j _ hj => by rw [show j = 0 by omega]; exact no_escape22_at0)
    simpa [zseq] using he

/-- C8: the render loop never terminates without a window-close request:
if running the loop from an unset close flag over any finite environment
stream terminates, some consumed frame delivered an Escape press or a
platform close request. -/
theorem loop_terminates_only_on_close (st : ViewState) (inputs : List FrameInput)
    (h : (renderLoop st false inputs).2.2 = true) :
    ∃ inp ∈ inputs, ∃ e ∈ inp.events,
      e = GEvent.escKeyPress ∨ e = GEvent.closeRequest := by
  rcases renderLoop_close_of_term inputs st false h with h1 | h2
  · exact absurd h1 (by simp)
  · exact h2

/-- C8 (witness): a stream whose single frame delivers an Escape press
terminates the loop, and the theorem locates the close request in it. -/
theorem loop_terminates_only_on_close_witness :
    ∃ inp ∈ [FrameInput.mk noKeys [GEvent.escKeyPress]], ∃ e ∈ inp.events,
      e = GEvent.escKeyPress ∨ e = GEvent.closeRequest :=
  loop_terminates_only_on_close initState [FrameInput.mk noKeys [GEvent.escKeyPress]]
    (by decide)

/-- C9: for every combination of driver-reported compile/link statuses,
start-up with a working window proceeds to the render loop (never
terminates the process), and each failed status has its diagnostic
emitted. -/
theorem shader_failures_nonfatal (v f l : Bool) :
    setupGraphics true v f l = InitResult.proceed (shaderDiags v f l) ∧
    (v = false → Diag.vertexCompile ∈ shaderDiags v f l) ∧
    (f = false → Diag.fragmentCompile ∈ shaderDiags v f l) ∧
    (l = false → Diag.programLink ∈ shaderDiags v f l) := by
  cases v <;> cases f <;> cases l <;> decide

/-- C9 (witness): all three failures at once — three diagnostics, and
execution still proceeds. -/
theorem shader_failures_nonfatal_witness :
    setupGraphics true false false false = InitResult.proceed (shaderDiags false false false) ∧
    Diag.vertexCompile ∈ shaderDiags false false false ∧
    Diag.fragmentCompile ∈ shaderDiags false false false ∧
    Diag.programLink ∈ shaderDiags false false false :=
  ⟨(shader_failures_nonfatal false false false).1,
   (shader_failures_nonfatal false false false).2.1 rfl,
   (shader_failures_nonfatal false false false).2.2.1 rfl,
   (shader_failures_nonfatal false false false).2.2.2 rfl⟩

/-- C10: the escape-colour expression divides by `iterationLimit`; the
state `iterationLimit = 0` is reachable (holding decrease-detail for 1000
frames from the initial 1000), in that state a pixel escaping on the
first loop step reaches the division-by-zero error branch (`none`), and
the precondition `iterationLimit > 0` makes the error branch unreachable. -/
theorem division_by_zero_guard :
    (runFrames (List.replicate 1000 downKeys)).substeps = 0 ∧
    mandelbrot (1, 1) 5 (0, 0) 0 = none ∧
    (∀ (p : ℚ × ℚ) (zoom : ℚ) (offset : ℚ × ℚ) (s : ℤ), 0 < s →
      (mandelbrot p zoom offset s).isSome = true) := by
  refine ⟨downRun 1000 initState (by decide) (by decide) (by decide),
    mandelbrot_div0_corner, ?_⟩
  intro p zoom offset s hs
  exact mandelLoop_isSome (cOf p zoom offset) s (by omega) ((s + 1).toNat) (0, 0) 0

/-- C10 (witness): with `iterationLimit = 1` every evaluation produces a
colour. -/
theorem division_by_zero_guard_witness :
    (mandelbrot (0, 0) 1 (0, 0) 1).isSome = true :=
  division_by_zero_guard.2.2 (0, 0) 1 (0, 0) 1 (by decide)

end Mandelbrot
